import Mathlib

/-!
# Verification of the portfolio updater against its specification

Shallow embedding of `portfolio_updater.py`.  The script clones two git
repositories, extracts metadata from the project README via regular
expressions (`_parse_readme`), appends a record to a JSON catalog
(`_update_json_file`), and commits/pushes the result (`run` / `main`).

Strings are modelled as Lean `String`/`List Char` (Python `str` code
points), JSON values as an inductive `JVal` (numbers restricted to
integers, the only kind the program manipulates), Python exceptions as an
inductive `PyExc`, and fallible code as `Except PyExc`.
-/

namespace PortfolioSpec

/-- Python exception classes that the program can raise or catch.
`fileNotFoundError` and `jsonDecodeError` are the two classes caught by
`_update_json_file`; `runtimeError` and `valueError` are the two classes
caught by `main`; `keyError`, `typeError` and `attributeError` can be
raised by the dynamic-typing operations in `_update_json_file` and are
caught nowhere. -/
inductive PyExc where
  | fileNotFoundError
  | jsonDecodeError
  | keyError
  | typeError
  | attributeError
  | runtimeError
  | valueError
deriving DecidableEq, Repr

/-! ## Character and string helpers (Python `str` operations) -/

/-- Python's `\s` regex class and `str.strip` whitespace set, restricted to
the ASCII whitespace characters (the only ones relevant to the patterns in
the source). -/
def isPySpace (c : Char) : Bool :=
  c == ' ' || c == '\t' || c == '\n' || c == '\r' || c == '\x0b' || c == '\x0c'

/-- Python `str.strip()`: remove leading and trailing whitespace. -/
def pyStrip (cs : List Char) : List Char :=
  ((cs.dropWhile isPySpace).reverse.dropWhile isPySpace).reverse

/-- Python `str.splitlines()`, restricted to the terminators `\n`, `\r`
and `\r\n` (the ones producible from the files the program reads).
`""` gives `[]`, a trailing terminator does not produce a final empty
line, and empty interior lines are kept. -/
def splitlinesGo : List Char → List Char → List (List Char)
  | [], [] => []
  | [], acc => [acc.reverse]
  | '\r' :: '\n' :: rest, acc => acc.reverse :: splitlinesGo rest []
  | '\r' :: rest, acc => acc.reverse :: splitlinesGo rest []
  | '\n' :: rest, acc => acc.reverse :: splitlinesGo rest []
  | c :: rest, acc => splitlinesGo rest (c :: acc)

/-- Model of `str.splitlines()` on a whole string. -/
def pySplitlines (cs : List Char) : List (List Char) := splitlinesGo cs []

/-- Python `' '.join(lines)`. -/
def spaceJoin (parts : List (List Char)) : List Char :=
  List.intercalate [' '] parts

/-- Literal-match helper: `litHead pat cs` is true when `cs` starts with the literal `pat`
(Python `str.startswith` / literal regex fragments). -/
def litHead : List Char → List Char → Bool
  | [], _ => true
  | _ :: _, [] => false
  | p :: ps, c :: cs => p == c && litHead ps cs

/-- Python string comparison: lexicographic on code points. -/
def charsLe : List Char → List Char → Bool
  | [], _ => true
  | _ :: _, [] => false
  | a :: as, b :: bs => if a < b then true else if b < a then false else charsLe as bs

/-- Model of Python `a <= b` on strings. -/
def strLe (a b : String) : Bool := charsLe a.data b.data

/-- Insert a string into a sorted list (step of the model of `sorted`). -/
def insertStr (a : String) : List String → List String
  | [] => [a]
  | b :: bs => if strLe a b then a :: b :: bs else b :: insertStr a bs

/-- Model of Python `sorted` on lists of strings (insertion sort; `sorted`
is a correct stable sort, and the two agree on every list once duplicates
have been removed). -/
def pySorted : List String → List String
  | [] => []
  | a :: as => insertStr a (pySorted as)

/-! ## `_parse_readme`: the three regular expressions

`name_match = re.search(r'^#\s(.+)', content, re.MULTILINE)`
`desc_match = re.search(r'##\s(?:<mojibake>\s)?About The Project\n\n(.*?)\n\n---', content, re.DOTALL)`
`tech_matches = re.findall(r'badge/.*?-(.*?)-', content)`

where `<mojibake>` is the four-character sequence U+00F0 U+0178 U+201C
U+2013 present in the source file (a double-encoded book emoji).
`re.search` returns the leftmost match; the lazy quantifiers take the
shortest text at that position.  The functions below implement exactly
those semantics by scanning every start position left to right. -/

/-- Attempt of the name pattern `^#\s(.+)` at one position (the `^` anchor
is handled by the caller): a `#`, one whitespace character (which may be a
newline), then a non-empty greedy run of non-newline characters, which is
the captured group. -/
def nameMatchAt : List Char → Option (List Char)
  | '#' :: w :: rest =>
    if isPySpace w then
      let g := rest.takeWhile (fun c => c != '\n')
      if g.isEmpty then none else some g
    else none
  | _ => none

/-- Scan for the name pattern: try each position, left to right; with
`re.MULTILINE`, `^` matches at the start of the input and after each
`'\n'`. -/
def nameSearchGo : List Char → Bool → Option (List Char)
  | [], _ => none
  | c :: rest, atLineStart =>
    match (if atLineStart then nameMatchAt (c :: rest) else none) with
    | some g => some g
    | none => nameSearchGo rest (c == '\n')

/-- The search `re.search(r'^#\s(.+)', content, re.MULTILINE)`, returning group 1. -/
def name_search (cs : List Char) : Option (List Char) := nameSearchGo cs true

/-- The literal `About The Project\n\n` of the description pattern. -/
def aboutLit : List Char := "About The Project\n\n".data

/-- The terminator `\n\n---` of the description pattern's lazy group. -/
def hrLit : List Char := "\n\n---".data

/-- The four mojibake characters of the optional group in the description
pattern (bytes `c3 b0 c5 b8 e2 80 9c e2 80 93` of the source, decoded as
UTF-8). -/
def emojiLit : List Char := ['ð', 'Ÿ', '“', '–']

/-- The lazy group `(.*?)` (with `re.DOTALL`) followed by the literal
`\n\n---`: the shortest prefix of the input whose remainder starts with
`hrLit`, or `none` when the terminator never occurs. -/
def findCaptureUpToHr (cs : List Char) : Option (List Char) :=
  if litHead hrLit cs then some []
  else
    match cs with
    | [] => none
    | c :: rest => (findCaptureUpToHr rest).map fun g => c :: g

/-- The part of the description pattern after the optional group: the
literal `About The Project\n\n` and then the lazy captured group. -/
def descTail (tl : List Char) : Option (List Char) :=
  if litHead aboutLit tl then findCaptureUpToHr (tl.drop aboutLit.length) else none

/-- Attempt of the description pattern at one position: `##`, one
whitespace character, the optional (greedy, tried first) mojibake marker
followed by one whitespace character, then `descTail`. -/
def descMatchAt (cs : List Char) : Option (List Char) :=
  if litHead ['#', '#'] cs then
    match cs.drop 2 with
    | [] => none
    | w :: rest =>
      if isPySpace w then
        match (if litHead emojiLit rest then
                 match rest.drop 4 with
                 | w2 :: tail => if isPySpace w2 then descTail tail else none
                 | [] => none
               else none) with
        | some g => some g
        | none => descTail rest
      else none
  else none

/-- Scan for the description pattern at every position, left to right. -/
def descSearchGo : List Char → Option (List Char)
  | [] => none
  | c :: rest =>
    match descMatchAt (c :: rest) with
    | some g => some g
    | none => descSearchGo rest

/-- The search `re.search(r'##\s(?:..\s)?About The Project\n\n(.*?)\n\n---', content,
re.DOTALL)`, returning group 1. -/
def desc_search (cs : List Char) : Option (List Char) := descSearchGo cs

/-- The literal `badge/` of the technology pattern. -/
def badgeLit : List Char := "badge/".data

/-- Find the first `'-'` before any `'\n'` (the lazy `.*?-` without
`re.DOTALL`): returns the characters before the dash and the remainder
after it. -/
def findDashOnLine : List Char → Option (List Char × List Char)
  | [] => none
  | c :: rest =>
    if c == '-' then some ([], rest)
    else if c == '\n' then none
    else (findDashOnLine rest).map fun pr => (c :: pr.1, pr.2)

/-- Attempt of `badge/.*?-(.*?)-` at one position: the literal `badge/`,
then the first dash on the line, then the captured text up to the second
dash; returns the capture and the remainder after the match. -/
def techMatchAt (cs : List Char) : Option (List Char × List Char) :=
  if litHead badgeLit cs then
    match findDashOnLine (cs.drop 6) with
    | none => none
    | some (_, r1) =>
      match findDashOnLine r1 with
      | none => none
      | some (cap, r2) => some (cap, r2)
  else none

/-- Model of `re.findall`: scan left to right, collect non-overlapping matches,
resuming after the end of each match.  The fuel argument (instantiated
with the input length, which bounds the number of steps since every step
consumes at least one character) keeps the recursion structural. -/
def techScan : Nat → List Char → List (List Char)
  | 0, _ => []
  | _ + 1, [] => []
  | fuel + 1, c :: rest =>
    match techMatchAt (c :: rest) with
    | some (cap, r2) => cap :: techScan fuel r2
    | none => techScan fuel rest

/-- The matches `re.findall(r'badge/.*?-(.*?)-', content)`: the captured groups. -/
def tech_matches (cs : List Char) : List String :=
  (techScan cs.length cs).map fun l => String.mk l

/-- The extracted metadata (`{"name": ..., "description": ...,
"technologies": ...}` returned by `_parse_readme`). -/
structure Metadata where
  name : String
  description : String
  technologies : List String
deriving DecidableEq, Repr

/-- Model of `tech.startswith('Platform')`. -/
def startsWithPlatform (t : String) : Bool := litHead "Platform".data t.data

/-- Model of `sorted(list(set(tech for tech in tech_matches if not
tech.startswith('Platform'))))`: filter, drop duplicates (byte-identical
only), sort lexicographically. -/
def techPipeline (ms : List String) : List String :=
  pySorted (ms.filter fun t => !startsWithPlatform t).dedup

/-- Model of `_parse_readme`: `none` models a missing `README.md` (the
`os.path.exists` guard) and a `None` return; otherwise the file content is
matched against the three patterns.  The name and the description are
required; the name is stripped, the description is stripped and its lines
joined with single spaces. -/
def parse_readme (readme : Option String) : Option Metadata :=
  match readme with
  | none => none
  | some content =>
    let cs := content.data
    match name_search cs, desc_search cs with
    | some n, some d =>
      some { name := String.mk (pyStrip n)
             description := String.mk (spaceJoin (pySplitlines (pyStrip d)))
             technologies := techPipeline (tech_matches cs) }
    | _, _ => none

/-! ## `_update_json_file`: JSON values and the catalog update

`json.load` produces Python values; the subsequent code subscripts,
iterates, compares and appends without any type checks, so the embedding
works on untyped JSON values and returns `Except PyExc`. -/

/-- A parsed JSON value.  Numbers are restricted to integers (the program
only ever reads and writes integer `id`s); objects are key-unique
association lists (`json.load` collapses duplicate keys). -/
inductive JVal where
  | null
  | jbool (b : Bool)
  | jint (n : Int)
  | jstr (s : String)
  | jarr (xs : List JVal)
  | jobj (kvs : List (String × JVal))

/-- First-match association-list lookup (Python dict lookup; keys are
unique). -/
def lookupKV : List (String × JVal) → String → Option JVal
  | [], _ => none
  | (k, v) :: kvs, key => if k == key then some v else lookupKV kvs key

/-- Model of `p['github_url']`: a dict yields the value or raises `KeyError`;
subscripting a list or a string with a string key, or a non-subscriptable
value, raises `TypeError`. -/
def lookupGithubUrl : JVal → Except PyExc JVal
  | .jobj kvs =>
    match lookupKV kvs "github_url" with
    | some v => .ok v
    | none => .error .keyError
  | _ => .error .typeError

/-- Python `==` between a JSON value and a string: true only for an equal
string (cross-type equality is `False`, not an error). -/
def jvalEqStr (v : JVal) (s : String) : Bool :=
  match v with
  | .jstr t => t == s
  | _ => false

/-- Model of `for p in projects`: iterating a list yields its elements, a dict its
keys, a string its one-character substrings; other values raise
`TypeError`. -/
def iterElems : JVal → Except PyExc (List JVal)
  | .jarr xs => .ok xs
  | .jobj kvs => .ok (kvs.map fun kv => .jstr kv.1)
  | .jstr s => .ok (s.data.map fun c => .jstr (String.mk [c]))
  | _ => .error .typeError

/-- Model of `any(p['github_url'] == self.project_repo_url for p in projects)`:
short-circuit scan, propagating the first exception raised by a lookup. -/
def anyDup (url : String) : List JVal → Except PyExc Bool
  | [] => .ok false
  | p :: ps => do
    let v ← lookupGithubUrl p
    if jvalEqStr v url then .ok true else anyDup url ps

/-- Model of `p.get('id', 0)`: only dicts have `.get`; other values raise
`AttributeError`. -/
def pyGetId : JVal → Except PyExc JVal
  | .jobj kvs => .ok ((lookupKV kvs "id").getD (.jint 0))
  | _ => .error .attributeError

/-- Numeric view of a JSON value (Python `bool` is an `int` subclass). -/
def jnumVal : JVal → Option Int
  | .jint n => some n
  | .jbool b => some (if b then 1 else 0)
  | _ => none

/-- Python `max(xs, default=0)` on integers: the default applies only to
an empty sequence. -/
def pyMaxD : List Int → Int
  | [] => 0
  | x :: xs => xs.foldl max x

/-- The generator `(p.get('id', 0) for p in projects)`, evaluated elementwise: the
first `AttributeError` raised by a non-dict element propagates. -/
def getIds : List JVal → Except PyExc (List JVal)
  | [] => .ok []
  | p :: ps => do
    let v ← pyGetId p
    let vs ← getIds ps
    return v :: vs

/-- All-numeric view of a list of id values, `none` when some id is not a
number. -/
def numsOf : List JVal → Option (List Int)
  | [] => some []
  | v :: vs =>
    match jnumVal v, numsOf vs with
    | some n, some ns => some (n :: ns)
    | _, _ => none

/-- Model of `max((p.get('id', 0) for p in projects), default=0) + 1`.  Mixed-type
id values make Python raise `TypeError`, either inside `max` or at the
`+ 1`; both cases are collapsed to `typeError` here. -/
def computeNewId (elems : List JVal) : Except PyExc Int := do
  let ids ← getIds elems
  match numsOf ids with
  | some ns => .ok (pyMaxD ns + 1)
  | none => .error .typeError

/-- The `new_project_entry` dict literal, in source key order. -/
def mkEntry (nid : Int) (meta : Metadata) (url : String) : JVal :=
  .jobj [("id", .jint nid), ("name", .jstr meta.name),
         ("description", .jstr meta.description),
         ("technologies", .jarr (meta.technologies.map .jstr)),
         ("github_url", .jstr url), ("live_url", .jstr "")]

/-- Model of `projects.append(...)`: only lists have `.append`; dicts and strings
raise `AttributeError`. -/
def pyAppend (j : JVal) (entry : JVal) : Except PyExc JVal :=
  match j with
  | .jarr xs => .ok (.jarr (xs ++ [entry]))
  | _ => .error .attributeError

/-- The body of `_update_json_file` after `json.load` succeeded, on the
parsed value `j`: duplicate check, new id, append; returns the
`(applied, name)` pair of the source together with the value written back
(the parsed value itself when nothing is written).  Every exception is
raised before `json.dump`, so the file content never changes on an
error. -/
def updateParsed (j : JVal) (url : String) (meta : Metadata) :
    Except PyExc (Bool × JVal × Option String) := do
  let elems ← iterElems j
  let dup ← anyDup url elems
  if dup then
    return (false, j, none)
  else
    let nid ← computeNewId elems
    let j2 ← pyAppend j (mkEntry nid meta url)
    return (true, j2, some meta.name)

/-- The catalog file as `_update_json_file` can observe it: absent
(`open` raises `FileNotFoundError`), present but not valid JSON
(`json.load` raises `json.JSONDecodeError`), or parsed. -/
inductive CatalogFile where
  | missing
  | malformed
  | parsed (j : JVal)

/-- The `try` body of `_update_json_file` (open, load, update, dump). -/
def updateBody (f : CatalogFile) (url : String) (meta : Metadata) :
    Except PyExc (Bool × CatalogFile × Option String) :=
  match f with
  | .missing => .error .fileNotFoundError
  | .malformed => .error .jsonDecodeError
  | .parsed j => (updateParsed j url meta).map fun r => (r.1, .parsed r.2.1, r.2.2)

/-- The exception classes named by the `except` clause of
`_update_json_file`. -/
def isCaughtSoft : PyExc → Bool
  | .fileNotFoundError => true
  | .jsonDecodeError => true
  | _ => false

/-- Model of `_update_json_file`: the `try` body with its handler, which turns
`FileNotFoundError` and `json.JSONDecodeError` into `(False, None)` with
the file unchanged and lets every other exception escape. -/
def update_json_file (f : CatalogFile) (url : String) (meta : Metadata) :
    Except PyExc (Bool × CatalogFile × Option String) :=
  match updateBody f url meta with
  | .ok r => .ok r
  | .error e => if isCaughtSoft e then .ok (false, f, none) else .error e

/-! ## The orchestrator: `run` and `main` -/

/-- The outcomes of the external world for one run: whether each git
command succeeds, the content of `README.md` in the project clone
(`none` = absent), and the catalog file in the API clone. -/
structure Env where
  projectUrl : String
  cloneApiOk : Bool
  cloneProjectOk : Bool
  readme : Option String
  catalog : CatalogFile
  addOk : Bool
  commitOk : Bool
  pushOk : Bool

/-- Observable state when the process exits: whether each ephemeral clone
directory still exists, the catalog file content at the end of the `with`
block, and the catalog content pushed to the remote (`none` = no push
happened). -/
structure RunState where
  apiDirExists : Bool
  projDirExists : Bool
  catalogAtExit : CatalogFile
  pushed : Option CatalogFile

/-- Model of `_git_commit_and_push`: add, commit, push; the first failure
short-circuits. -/
def git_commit_and_push (e : Env) : Bool := e.addOk && e.commitOk && e.pushOk

/-- The body of `run` inside the `with temporary_directories(...)` block:
clone API (RuntimeError on failure), clone project (RuntimeError), parse
the README (ValueError when `None`), update the catalog (its uncaught
exceptions propagate), return early on a no-op, push (RuntimeError on
failure).  Returns the catalog state, what was pushed, which directories
were created, and the control outcome. -/
def runBody (e : Env) : CatalogFile × Option CatalogFile × (Bool × Bool) × Except PyExc Unit :=
  if !e.cloneApiOk then (e.catalog, none, (true, false), .error .runtimeError)
  else if !e.cloneProjectOk then (e.catalog, none, (true, true), .error .runtimeError)
  else
    match parse_readme e.readme with
    | none => (e.catalog, none, (true, true), .error .valueError)
    | some meta =>
      match update_json_file e.catalog e.projectUrl meta with
      | .error exc => (e.catalog, none, (true, true), .error exc)
      | .ok (false, f, _) => (f, none, (true, true), .ok ())
      | .ok (true, f, _) =>
        if git_commit_and_push e then (f, some f, (true, true), .ok ())
        else (f, none, (true, true), .error .runtimeError)

/-- The process state after the `finally` of `temporary_directories` has
removed both ephemeral directories. -/
def finalState (cat : CatalogFile) (p : Option CatalogFile) : RunState :=
  { apiDirExists := false, projDirExists := false, catalogAtExit := cat, pushed := p }

/-- Model of `run`: the body wrapped in `temporary_directories(API_CLONE_DIR,
PROJECT_CLONE_DIR)`, whose `finally` removes both directories on every
exit path, normal or exceptional (the `PermissionError` retry of
`handle_remove_readonly` is modelled as a successful removal). -/
def run_program (e : Env) : RunState × Except PyExc Unit :=
  let r := runBody e
  (finalState r.1 r.2.1, r.2.2.2)

/-- How `main` terminates: normal exit (code 0, success message on
stdout), `sys.exit(1)` after the one-line diagnostic that the
`except (RuntimeError, ValueError)` handler prints to stderr, or an
uncaught exception (traceback). -/
inductive MainResult where
  | exitZero
  | exitOneDiag
  | crash (e : PyExc)
deriving DecidableEq, Repr

/-- The `try`/`except (RuntimeError, ValueError)` of `main`: a normal
return prints the success message and the process exits 0; the two caught
classes print the diagnostic to stderr and `sys.exit(1)`; anything else is
an uncaught exception. -/
def main_result : Except PyExc Unit → MainResult
  | .ok _ => .exitZero
  | .error .runtimeError => .exitOneDiag
  | .error .valueError => .exitOneDiag
  | .error exc => .crash exc

/-- Model of `main`: run the updater; catch only `RuntimeError` and `ValueError`. -/
def main_outcome (e : Env) : MainResult × RunState :=
  (main_result (run_program e).2, (run_program e).1)

/-! ## Well-formed catalogs: the Project Record data model -/

/-- A Project Record as defined by the data model: the six fields of the
entries the program writes. -/
structure Project where
  id : Int
  name : String
  description : String
  technologies : List String
  github_url : String
  live_url : String

/-- The JSON object of a Project Record, in the key order of
`new_project_entry`. -/
def Project.toJVal (p : Project) : JVal :=
  .jobj [("id", .jint p.id), ("name", .jstr p.name),
         ("description", .jstr p.description),
         ("technologies", .jarr (p.technologies.map .jstr)),
         ("github_url", .jstr p.github_url), ("live_url", .jstr p.live_url)]

/-- A catalog of Project Records as a JSON array. -/
def catalogOf (ps : List Project) : JVal := .jarr (ps.map Project.toJVal)

/-- The Project Record built by an applied update. -/
def newProject (nid : Int) (meta : Metadata) (url : String) : Project :=
  { id := nid, name := meta.name, description := meta.description,
    technologies := meta.technologies, github_url := url, live_url := "" }

/-! ## Computation lemmas for catalogs of Project Records -/

theorem exc_bind_ok {α β : Type} (a : α) (f : α → Except PyExc β) :
    (Except.ok a >>= f) = f a := rfl

theorem lookupGithubUrl_toJVal (p : Project) :
    lookupGithubUrl p.toJVal = .ok (.jstr p.github_url) := rfl

theorem pyGetId_toJVal (p : Project) : pyGetId p.toJVal = .ok (.jint p.id) := rfl

theorem mkEntry_toJVal (nid : Int) (meta : Metadata) (url : String) :
    mkEntry nid meta url = (newProject nid meta url).toJVal := rfl

theorem anyDup_catalog (url : String) (ps : List Project) :
    anyDup url (ps.map Project.toJVal) = .ok (ps.any fun p => p.github_url == url) := by
  induction ps with
  | nil => rfl
  | cons p l ih =>
    show (Except.ok (JVal.jstr p.github_url) >>= fun v =>
        if jvalEqStr v url then Except.ok true else anyDup url (l.map Project.toJVal)) = _
    rw [exc_bind_ok]
    show (if p.github_url == url then Except.ok true else _) = _
    cases h : p.github_url == url with
    | true => simp [h]
    | false => simp [h, ih]

theorem exc_pure_ok {α : Type} (a : α) : (pure a : Except PyExc α) = Except.ok a := rfl

theorem getIds_catalog (ps : List Project) :
    getIds (ps.map Project.toJVal) = .ok (ps.map fun p => JVal.jint p.id) := by
  induction ps with
  | nil => rfl
  | cons p l ih => simp [getIds, pyGetId_toJVal, exc_bind_ok, ih, exc_pure_ok]

theorem numsOf_ids (ps : List Project) :
    numsOf (ps.map fun p => JVal.jint p.id) = some (ps.map Project.id) := by
  induction ps with
  | nil => rfl
  | cons p l ih => simp [numsOf, jnumVal, ih]

theorem computeNewId_catalog (ps : List Project) :
    computeNewId (ps.map Project.toJVal) = .ok (pyMaxD (ps.map Project.id) + 1) := by
  simp [computeNewId, getIds_catalog, exc_bind_ok, numsOf_ids]

theorem updateParsed_dup (ps : List Project) (url : String) (meta : Metadata)
    (h : (ps.any fun p => p.github_url == url) = true) :
    updateParsed (catalogOf ps) url meta = .ok (false, catalogOf ps, none) := by
  simp [updateParsed, catalogOf, iterElems, exc_bind_ok, anyDup_catalog, h, exc_pure_ok]

theorem updateParsed_new (ps : List Project) (url : String) (meta : Metadata)
    (h : (ps.any fun p => p.github_url == url) = false) :
    updateParsed (catalogOf ps) url meta =
      .ok (true,
        catalogOf (ps ++ [newProject (pyMaxD (ps.map Project.id) + 1) meta url]),
        some meta.name) := by
  simp [updateParsed, catalogOf, iterElems, exc_bind_ok, anyDup_catalog, h,
    computeNewId_catalog, pyAppend, mkEntry_toJVal, List.map_append]

theorem foldlMax_le (xs : List Int) : ∀ a : Int,
    a ≤ xs.foldl max a ∧ ∀ n ∈ xs, n ≤ xs.foldl max a := by
  induction xs with
  | nil => intro a; simp
  | cons b xs ih =>
    intro a
    have h1 := (ih (max a b)).1
    have h2 := (ih (max a b)).2
    refine ⟨le_trans (le_max_left a b) h1, ?_⟩
    intro n hn
    rcases List.mem_cons.mp hn with rfl | hn
    · exact le_trans (le_max_right a n) h1
    · exact h2 n hn

theorem foldlMax_mem (xs : List Int) : ∀ a : Int,
    xs.foldl max a = a ∨ xs.foldl max a ∈ xs := by
  induction xs with
  | nil => intro a; exact Or.inl rfl
  | cons b xs ih =>
    intro a
    rcases ih (max a b) with h | h
    · rcases max_choice a b with hm | hm
      · exact Or.inl (by rw [List.foldl_cons, h, hm])
      · refine Or.inr (List.mem_cons.mpr (Or.inl ?_))
        rw [List.foldl_cons, h, hm]
    · exact Or.inr (List.mem_cons.mpr (Or.inr h))

/-- The value `pyMaxD` is the maximum of the list, with `0` for an empty list: it
bounds every element, is attained on a non-empty list, and is `0` on an
empty one. -/
theorem pyMaxD_spec (ns : List Int) :
    (∀ n ∈ ns, n ≤ pyMaxD ns) ∧ (ns ≠ [] → pyMaxD ns ∈ ns) ∧ pyMaxD [] = (0 : Int) := by
  refine ⟨?_, ?_, rfl⟩
  · cases ns with
    | nil => simp
    | cons a l =>
      intro n hn
      show n ≤ l.foldl max a
      rcases List.mem_cons.mp hn with rfl | hn
      · exact (foldlMax_le l n).1
      · exact (foldlMax_le l a).2 n hn
  · cases ns with
    | nil => intro h; exact absurd rfl h
    | cons a l =>
      intro _
      show l.foldl max a ∈ a :: l
      rcases foldlMax_mem l a with h | h
      · exact List.mem_cons.mpr (Or.inl h)
      · exact List.mem_cons.mpr (Or.inr h)

/-! ## Claims C1-C3: the catalog update on well-formed catalogs -/

/-- Claim C1: for every catalog that already contains a record whose
`github_url` equals the project URL, the update returns `applied = false`
and leaves the catalog unchanged; consequently (on a catalog satisfying
the data model's uniqueness invariant) running the update twice with the
same URL yields a catalog with exactly one record for that URL, the
second run being a no-op. -/
theorem update_idempotent (ps : List Project) (url : String) (m1 m2 : Metadata)
    (huniq : (ps.filter fun p => p.github_url == url).length ≤ 1) :
    ((∃ p ∈ ps, p.github_url = url) →
      updateParsed (catalogOf ps) url m1 = .ok (false, catalogOf ps, none)) ∧
    ∃ ps1 b n,
      updateParsed (catalogOf ps) url m1 = .ok (b, catalogOf ps1, n) ∧
      updateParsed (catalogOf ps1) url m2 = .ok (false, catalogOf ps1, none) ∧
      (ps1.filter fun p => p.github_url == url).length = 1 := by
  cases hdup : ps.any fun p => p.github_url == url with
  | true =>
    have hfirst := updateParsed_dup ps url m1 hdup
    have hsecond := updateParsed_dup ps url m2 hdup
    refine ⟨fun _ => hfirst, ps, false, none, hfirst, hsecond, ?_⟩
    have hpos : 0 < (ps.filter fun p => p.github_url == url).length := by
      rcases List.any_eq_true.mp hdup with ⟨p, hp, he⟩
      have hm : p ∈ ps.filter fun p => p.github_url == url := List.mem_filter.mpr ⟨hp, he⟩
      exact List.length_pos.mpr (List.ne_nil_of_mem hm)
    omega
  | false =>
    constructor
    · rintro ⟨p, hp, he⟩
      have : (ps.any fun p => p.github_url == url) = true :=
        List.any_eq_true.mpr ⟨p, hp, by simp [he]⟩
      rw [hdup] at this
      exact absurd this (by simp)
    · refine ⟨ps ++ [newProject (pyMaxD (ps.map Project.id) + 1) m1 url], true, some m1.name,
        updateParsed_new ps url m1 hdup, ?_, ?_⟩
      · apply updateParsed_dup
        simp [List.any_append, newProject]
      · have hnil : (ps.filter fun p => p.github_url == url) = [] := by
          rw [List.filter_eq_nil_iff]
          intro p hp
          have := List.any_eq_false.mp hdup p hp
          simpa using this
        simp [List.filter_append, hnil, newProject]

/-- Claim C2: on a catalog with no duplicate of the project URL the update
applies, and the appended record's id is one more than the maximum
existing id (`0` for an empty catalog): it strictly exceeds every existing
id, equals some existing id plus one when the catalog is non-empty, and is
`1` when the catalog is empty. -/
theorem new_record_id (ps : List Project) (url : String) (meta : Metadata)
    (h : ∀ p ∈ ps, p.github_url ≠ url) :
    ∃ nid,
      updateParsed (catalogOf ps) url meta =
        .ok (true, catalogOf (ps ++ [newProject nid meta url]), some meta.name) ∧
      nid = pyMaxD (ps.map Project.id) + 1 ∧
      (∀ p ∈ ps, p.id < nid) ∧
      (ps ≠ [] → ∃ p ∈ ps, nid = p.id + 1) ∧
      (ps = [] → nid = 1) := by
  have hdup : (ps.any fun p => p.github_url == url) = false := by
    rw [List.any_eq_false]
    intro p hp
    simpa using h p hp
  refine ⟨_, updateParsed_new ps url meta hdup, rfl, ?_, ?_, ?_⟩
  · intro p hp
    have := (pyMaxD_spec (ps.map Project.id)).1 p.id (List.mem_map_of_mem Project.id hp)
    omega
  · intro hne
    have hmem := (pyMaxD_spec (ps.map Project.id)).2.1 (by simpa using hne)
    rcases List.mem_map.mp hmem with ⟨p, hp, he⟩
    exact ⟨p, hp, by rw [← he]⟩
  · intro hnil
    subst hnil
    rfl

/-- Claim C3: whenever the update applies, the resulting catalog is all
pre-existing records, unmodified and in order, followed by exactly one
new record whose name, description and technologies come from the
metadata, whose `github_url` is the project URL and whose `live_url` is
empty. -/
theorem update_appends_one (ps : List Project) (url : String) (meta : Metadata)
    (j2 : JVal) (n : Option String)
    (h : updateParsed (catalogOf ps) url meta = .ok (true, j2, n)) :
    ∃ q : Project,
      j2 = .jarr (ps.map Project.toJVal ++ [q.toJVal]) ∧
      q.name = meta.name ∧ q.description = meta.description ∧
      q.technologies = meta.technologies ∧ q.github_url = url ∧ q.live_url = "" ∧
      n = some meta.name := by
  cases hdup : ps.any fun p => p.github_url == url with
  | true =>
    rw [updateParsed_dup ps url meta hdup] at h
    simp at h
  | false =>
    rw [updateParsed_new ps url meta hdup] at h
    simp only [Except.ok.injEq, Prod.mk.injEq] at h
    obtain ⟨-, hj, hn⟩ := h
    exact ⟨newProject (pyMaxD (ps.map Project.id) + 1) meta url,
      by rw [← hj]; simp [catalogOf, List.map_append], rfl, rfl, rfl, rfl, rfl, hn.symm⟩

/-- A concrete record and metadata for the witnesses. -/
def sampleProject : Project :=
  { id := 1, name := "A", description := "d", technologies := ["Go"],
    github_url := "https://a", live_url := "" }

/-- Concrete metadata for the witnesses. -/
def sampleMeta : Metadata :=
  { name := "Demo", description := "A demo.", technologies := ["Go"] }

theorem update_idempotent_witness :
    ((∃ p ∈ [sampleProject], p.github_url = "https://a") →
      updateParsed (catalogOf [sampleProject]) "https://a" sampleMeta =
        .ok (false, catalogOf [sampleProject], none)) ∧
    ∃ ps1 b n,
      updateParsed (catalogOf [sampleProject]) "https://a" sampleMeta =
        .ok (b, catalogOf ps1, n) ∧
      updateParsed (catalogOf ps1) "https://a" sampleMeta =
        .ok (false, catalogOf ps1, none) ∧
      (ps1.filter fun p => p.github_url == "https://a").length = 1 :=
  update_idempotent [sampleProject] "https://a" sampleMeta sampleMeta (by decide)

theorem new_record_id_witness :
    ∃ nid,
      updateParsed (catalogOf [sampleProject]) "https://b" sampleMeta =
        .ok (true, catalogOf ([sampleProject] ++ [newProject nid sampleMeta "https://b"]),
          some sampleMeta.name) ∧
      nid = pyMaxD ([sampleProject].map Project.id) + 1 ∧
      (∀ p ∈ [sampleProject], p.id < nid) ∧
      ([sampleProject] ≠ [] → ∃ p ∈ [sampleProject], nid = p.id + 1) ∧
      ([sampleProject] = [] → nid = 1) :=
  new_record_id [sampleProject] "https://b" sampleMeta (by decide)

theorem update_appends_one_witness :
    ∃ q : Project,
      catalogOf ([sampleProject] ++ [newProject 2 sampleMeta "https://b"]) =
        .jarr ([sampleProject].map Project.toJVal ++ [q.toJVal]) ∧
      q.name = sampleMeta.name ∧ q.description = sampleMeta.description ∧
      q.technologies = sampleMeta.technologies ∧ q.github_url = "https://b" ∧
      q.live_url = "" ∧
      (some sampleMeta.name : Option String) = some sampleMeta.name :=
  update_appends_one [sampleProject] "https://b" sampleMeta
    (catalogOf ([sampleProject] ++ [newProject 2 sampleMeta "https://b"]))
    (some sampleMeta.name) (by rfl)

/-! ## Claims C5, C7, C8, C9: failure handling and the orchestrator -/

/-- A concrete README whose extraction succeeds, for the witnesses. -/
def sampleReadme : String :=
  "# Demo\n\n## About The Project\n\nA demo.\n\n---\n\nbadge/a-Go-b"

/-- A concrete all-success environment, for the witnesses. -/
def sampleEnv : Env :=
  { projectUrl := "https://b", cloneApiOk := true, cloneProjectOk := true,
    readme := some sampleReadme, catalog := .parsed (catalogOf [sampleProject]),
    addOk := true, commitOk := true, pushOk := true }

/-- Variant of `sampleEnv` with a missing catalog file. -/
def envMissingCat : Env := { sampleEnv with catalog := .missing }

/-- Variant of `sampleEnv` with a README none of the required patterns match. -/
def envBadReadme : Env := { sampleEnv with readme := some "no headings here" }

/-- Variant of `sampleEnv` with a failing API clone. -/
def envNoApi : Env := { sampleEnv with cloneApiOk := false }

/-- Variant of `sampleEnv` with a failing push. -/
def envNoPush : Env := { sampleEnv with pushOk := false }

/-- Claim C5: a missing catalog file and a malformed catalog file both
make the update return `applied = false` with the file unchanged and no
exception surfaced, and a run hitting either case exits 0 with no push. -/
theorem soft_failure (url : String) (meta : Metadata) (e : Env) :
    update_json_file .missing url meta = .ok (false, .missing, none) ∧
    update_json_file .malformed url meta = .ok (false, .malformed, none) ∧
    (e.cloneApiOk = true → e.cloneProjectOk = true →
      parse_readme e.readme = some meta →
      (e.catalog = .missing ∨ e.catalog = .malformed) →
      (main_outcome e).1 = .exitZero ∧
      (main_outcome e).2.catalogAtExit = e.catalog ∧
      (main_outcome e).2.pushed = none) := by
  refine ⟨rfl, rfl, ?_⟩
  intro h1 h2 hparse hcat
  rcases hcat with hcat | hcat <;>
    simp [main_outcome, run_program, runBody, h1, h2, hparse, hcat,
      update_json_file, updateBody, isCaughtSoft, main_result, finalState]

theorem soft_failure_witness :
    update_json_file .missing "https://b" sampleMeta = .ok (false, .missing, none) ∧
    update_json_file .malformed "https://b" sampleMeta = .ok (false, .malformed, none) ∧
    (envMissingCat.cloneApiOk = true →
      envMissingCat.cloneProjectOk = true →
      parse_readme envMissingCat.readme = some sampleMeta →
      (envMissingCat.catalog = .missing ∨
        envMissingCat.catalog = .malformed) →
      (main_outcome envMissingCat).1 = .exitZero ∧
      (main_outcome envMissingCat).2.catalogAtExit =
        envMissingCat.catalog ∧
      (main_outcome envMissingCat).2.pushed = none) :=
  soft_failure "https://b" sampleMeta envMissingCat

/-- Claim C7: extraction returns `None` exactly when the README file is
absent or the name pattern or the description pattern fails to match (a
technologies match alone never suffices); and when extraction fails the
run raises `ValueError` with the catalog untouched and nothing pushed. -/
theorem extraction_failure_policy :
    (∀ r : Option String, parse_readme r = none ↔
      (r = none ∨ ∃ c, r = some c ∧
        (name_search c.data = none ∨ desc_search c.data = none))) ∧
    (∀ e : Env, e.cloneApiOk = true → e.cloneProjectOk = true →
      parse_readme e.readme = none →
      run_program e = (finalState e.catalog none, .error .valueError)) := by
  constructor
  · intro r
    cases r with
    | none => simp [parse_readme]
    | some c =>
      cases hn : name_search c.data <;> cases hd : desc_search c.data <;>
        simp [parse_readme, hn, hd]
  · intro e h1 h2 hparse
    simp [run_program, runBody, h1, h2, hparse]

theorem extraction_failure_policy_witness :
    parse_readme (some "no headings here") = none ∧
    run_program envBadReadme =
      (finalState envBadReadme.catalog none, .error .valueError) := by
  have h := extraction_failure_policy
  refine ⟨?_, h.2 envBadReadme rfl rfl ?_⟩ <;>
    exact (h.1 (some "no headings here")).mpr (Or.inr ⟨"no headings here", rfl, Or.inl rfl⟩)

/-- Claim C8: on every exit path (success, skip or any fatal failure),
both ephemeral clone directories are removed before the process exits. -/
theorem cleanup_on_every_path (e : Env) :
    (run_program e).1.apiDirExists = false ∧
    (run_program e).1.projDirExists = false ∧
    (main_outcome e).2.apiDirExists = false ∧
    (main_outcome e).2.projDirExists = false :=
  ⟨rfl, rfl, rfl, rfl⟩

/-- Claim C9: exit code 0 on full success and on a benign skip; exit
code 1, after the one-line stderr diagnostic, on a clone failure, a README
parse failure, or a push failure. -/
theorem exit_codes (e : Env) :
    (e.cloneApiOk = false → (main_outcome e).1 = .exitOneDiag) ∧
    (e.cloneApiOk = true → e.cloneProjectOk = false →
      (main_outcome e).1 = .exitOneDiag) ∧
    (e.cloneApiOk = true → e.cloneProjectOk = true → parse_readme e.readme = none →
      (main_outcome e).1 = .exitOneDiag) ∧
    (e.cloneApiOk = true → e.cloneProjectOk = true →
      ∀ m, parse_readme e.readme = some m →
      ∀ f n, update_json_file e.catalog e.projectUrl m = .ok (false, f, n) →
      (main_outcome e).1 = .exitZero) ∧
    (e.cloneApiOk = true → e.cloneProjectOk = true →
      ∀ m, parse_readme e.readme = some m →
      ∀ f n, update_json_file e.catalog e.projectUrl m = .ok (true, f, n) →
      (git_commit_and_push e = true → (main_outcome e).1 = .exitZero) ∧
      (git_commit_and_push e = false → (main_outcome e).1 = .exitOneDiag)) := by
  refine ⟨?_, ?_, ?_, ?_, ?_⟩
  · intro h
    simp [main_outcome, run_program, runBody, h, main_result]
  · intro h1 h2
    simp [main_outcome, run_program, runBody, h1, h2, main_result]
  · intro h1 h2 hparse
    simp [main_outcome, run_program, runBody, h1, h2, hparse, main_result]
  · intro h1 h2 m hparse f n hupd
    simp [main_outcome, run_program, runBody, h1, h2, hparse, hupd, main_result]
  · intro h1 h2 m hparse f n hupd
    constructor <;> intro hgit <;>
      simp [main_outcome, run_program, runBody, h1, h2, hparse, hupd, hgit, main_result]

theorem exit_codes_witness :
    (main_outcome sampleEnv).1 = .exitZero ∧
    (main_outcome envNoApi).1 = .exitOneDiag ∧
    (main_outcome envNoPush).1 = .exitOneDiag := by
  refine ⟨?_, ?_, ?_⟩
  · exact ((exit_codes sampleEnv).2.2.2.2 rfl rfl sampleMeta (by rfl)
      (.parsed (catalogOf ([sampleProject] ++ [newProject 2 sampleMeta "https://b"])))
      (some sampleMeta.name) (by rfl)).1 rfl
  · exact (exit_codes envNoApi).1 rfl
  · exact ((exit_codes envNoPush).2.2.2.2 rfl rfl sampleMeta (by rfl)
      (.parsed (catalogOf ([sampleProject] ++ [newProject 2 sampleMeta "https://b"])))
      (some sampleMeta.name) (by rfl)).2 rfl

/-! ## Claim C6: the technology pipeline -/

/-- Sortedness of a list of strings under Python string order, as a
computable check. -/
def isSortedB : List String → Bool
  | [] => true
  | [_] => true
  | a :: b :: rest => strLe a b && isSortedB (b :: rest)

theorem charsLe_total (a : List Char) : ∀ b : List Char,
    charsLe a b = true ∨ charsLe b a = true := by
  induction a with
  | nil => intro b; exact Or.inl rfl
  | cons x xs ih =>
    intro b
    cases b with
    | nil => exact Or.inr rfl
    | cons y ys =>
      rcases lt_trichotomy x y with h | h | h
      · left
        simp [charsLe, h]
      · subst h
        rcases ih ys with h2 | h2
        · left
          simp [charsLe, lt_irrefl, h2]
        · right
          simp [charsLe, lt_irrefl, h2]
      · right
        simp [charsLe, h]

theorem strLe_total (a b : String) : strLe a b = true ∨ strLe b a = true :=
  charsLe_total a.data b.data

theorem mem_insertStr (a x : String) (l : List String) :
    x ∈ insertStr a l ↔ x = a ∨ x ∈ l := by
  induction l with
  | nil => simp [insertStr]
  | cons b bs ih =>
    simp only [insertStr]
    split
    · simp [List.mem_cons]
    · rw [List.mem_cons, ih, List.mem_cons]
      tauto

theorem isSortedB_insertStr (a : String) (l : List String)
    (h : isSortedB l = true) : isSortedB (insertStr a l) = true := by
  induction l with
  | nil => rfl
  | cons b bs ih =>
    simp only [insertStr]
    split
    · next hab =>
      show (strLe a b && isSortedB (b :: bs)) = true
      rw [hab, h]
      rfl
    · next hab =>
      have hba : strLe b a = true := by
        rcases strLe_total a b with h2 | h2
        · exact absurd h2 (by simp [hab])
        · exact h2
      cases bs with
      | nil =>
        show (strLe b a && isSortedB [a]) = true
        rw [hba]
        rfl
      | cons c cs =>
        have hbc : strLe b c = true := by
          have := h
          simp [isSortedB, Bool.and_eq_true] at this
          exact this.1
        have hscs : isSortedB (c :: cs) = true := by
          have := h
          simp [isSortedB, Bool.and_eq_true] at this
          exact this.2
        have htail := ih hscs
        simp only [insertStr] at htail ⊢
        split
        · next hac =>
          show (strLe b a && ((strLe a c && isSortedB (c :: cs)) : Bool)) = true
          rw [hba, hac, hscs]
          rfl
        · next hac =>
          rw [if_neg hac] at htail
          show (strLe b c && isSortedB (c :: insertStr a cs)) = true
          rw [hbc, htail]
          rfl

theorem nodup_insertStr (a : String) (l : List String)
    (ha : a ∉ l) (h : l.Nodup) : (insertStr a l).Nodup := by
  induction l with
  | nil => simp [insertStr]
  | cons b bs ih =>
    simp only [insertStr]
    split
    · exact List.nodup_cons.mpr ⟨ha, h⟩
    · have hnb : b ∉ insertStr a bs := by
        rw [mem_insertStr]
        rintro (rfl | hmem)
        · exact ha (List.mem_cons_self b bs)
        · exact (List.nodup_cons.mp h).1 hmem
      exact List.nodup_cons.mpr
        ⟨hnb, ih (fun hm => ha (List.mem_cons.mpr (Or.inr hm))) (List.nodup_cons.mp h).2⟩

theorem mem_pySorted (x : String) (l : List String) : x ∈ pySorted l ↔ x ∈ l := by
  induction l with
  | nil => simp [pySorted]
  | cons a as ih =>
    simp only [pySorted]
    rw [mem_insertStr, ih, List.mem_cons]

theorem isSortedB_pySorted (l : List String) : isSortedB (pySorted l) = true := by
  induction l with
  | nil => rfl
  | cons a as ih => exact isSortedB_insertStr a (pySorted as) ih

theorem nodup_pySorted (l : List String) (h : l.Nodup) : (pySorted l).Nodup := by
  induction l with
  | nil => simp [pySorted]
  | cons a as ih =>
    have h' := List.nodup_cons.mp h
    exact nodup_insertStr a (pySorted as) (fun hm => h'.1 ((mem_pySorted a as).mp hm)) (ih h'.2)

/-- Claim C6: the extracted technology list is the badge-label matches
with duplicates removed (byte-identical only), labels beginning with
`Platform` excluded, and the rest sorted lexicographically; the pipeline
output is duplicate-free, sorted, and contains exactly the non-`Platform`
matches; on labels `["Go", "Python", "Platform-Windows"]` it gives
`["Go", "Python"]`. -/
theorem technologies_pipeline :
    (∀ c m, parse_readme (some c) = some m →
      m.technologies = techPipeline (tech_matches c.data)) ∧
    (∀ ms : List String,
      (techPipeline ms).Nodup ∧
      isSortedB (techPipeline ms) = true ∧
      (∀ t, t ∈ techPipeline ms ↔ t ∈ ms ∧ startsWithPlatform t = false)) ∧
    techPipeline ["Go", "Python", "Platform-Windows"] = ["Go", "Python"] := by
  refine ⟨?_, ?_, rfl⟩
  · intro c m h
    cases hn : name_search c.data <;> cases hd : desc_search c.data <;>
      simp [parse_readme, hn, hd] at h
    rw [← h]
  · intro ms
    refine ⟨nodup_pySorted _ (List.nodup_dedup _), isSortedB_pySorted _, ?_⟩
    intro t
    rw [techPipeline, mem_pySorted, List.mem_dedup, List.mem_filter]
    simp

theorem technologies_pipeline_witness :
    sampleMeta.technologies = techPipeline (tech_matches sampleReadme.data) ∧
    techPipeline ["Go", "Python", "Platform-Windows"] = ["Go", "Python"] :=
  ⟨technologies_pipeline.1 sampleReadme sampleMeta (by rfl), technologies_pipeline.2.2⟩

/-! ## Claim C10: malformed catalog entries -/

/-- Whether a JSON value is an object containing a `github_url` key. -/
def isUrlRecord : JVal → Bool
  | .jobj kvs => (lookupKV kvs "github_url").isSome
  | _ => false

theorem exc_bind_err {α β : Type} (e : PyExc) (f : α → Except PyExc β) :
    (Except.error e >>= f) = Except.error e := rfl

theorem lookupGithubUrl_not_record (v : JVal) (h : isUrlRecord v = false) :
    ∃ exc, (exc = PyExc.keyError ∨ exc = PyExc.typeError) ∧
      lookupGithubUrl v = .error exc := by
  cases v with
  | jobj kvs =>
    refine ⟨.keyError, Or.inl rfl, ?_⟩
    cases hk : lookupKV kvs "github_url" with
    | some v => simp [isUrlRecord, hk] at h
    | none => simp [lookupGithubUrl, hk]
  | null => exact ⟨.typeError, Or.inr rfl, rfl⟩
  | jbool b => exact ⟨.typeError, Or.inr rfl, rfl⟩
  | jint n => exact ⟨.typeError, Or.inr rfl, rfl⟩
  | jstr s => exact ⟨.typeError, Or.inr rfl, rfl⟩
  | jarr xs => exact ⟨.typeError, Or.inr rfl, rfl⟩

theorem anyDup_append_clean (url : String) (qs : List Project)
    (hq : ∀ q ∈ qs, q.github_url ≠ url) (rest : List JVal) :
    anyDup url (qs.map Project.toJVal ++ rest) = anyDup url rest := by
  induction qs with
  | nil => rfl
  | cons q l ih =>
    have hne : (q.github_url == url) = false := by
      simpa using hq q (List.mem_cons_self q l)
    show (Except.ok (JVal.jstr q.github_url) >>= fun v =>
        if jvalEqStr v url then Except.ok true
        else anyDup url (l.map Project.toJVal ++ rest)) = _
    rw [exc_bind_ok]
    show (if q.github_url == url then Except.ok true else _) = _
    rw [hne]
    exact ih fun p hp => hq p (List.mem_cons.mpr (Or.inr hp))

/-- Counterexample to claim C10 as stated: a catalog that is valid JSON
and contains an element (`42`) that is not an object with a `github_url`
key, on which the update nevertheless returns `applied = false` instead of
raising, because an earlier record already matches the project URL and
`any` short-circuits before reaching the offending element. -/
theorem update_raises_counterexample :
    update_json_file
      (.parsed (.jarr [.jobj [("github_url", .jstr "https://a")], .jint 42]))
      "https://a" sampleMeta =
      .ok (false,
        .parsed (.jarr [.jobj [("github_url", .jstr "https://a")], .jint 42]),
        none) := rfl

/-- Claim C10 (amended): when the parsed catalog is an array containing an
element that is not an object with a `github_url` key, and no earlier
record matches the project URL, the update raises `KeyError` or
`TypeError`; a non-iterable top-level value raises `TypeError`, a
non-empty object or string raises `TypeError`, and an empty object or
string raises `AttributeError` at the append.  None of these is caught by
the updater's handler, and `main` turns them into a crash rather than an
exit code. -/
theorem update_raises_uncaught (url : String) (meta : Metadata) :
    (∀ (qs : List Project) (bad : JVal) (post : List JVal),
      (∀ q ∈ qs, q.github_url ≠ url) →
      isUrlRecord bad = false →
      ∃ exc, (exc = PyExc.keyError ∨ exc = PyExc.typeError) ∧
        updateParsed (.jarr (qs.map Project.toJVal ++ bad :: post)) url meta =
          .error exc ∧
        update_json_file (.parsed (.jarr (qs.map Project.toJVal ++ bad :: post)))
          url meta = .error exc ∧
        main_result (.error exc) = .crash exc) ∧
    updateParsed .null url meta = .error .typeError ∧
    (∀ b, updateParsed (.jbool b) url meta = .error .typeError) ∧
    (∀ n, updateParsed (.jint n) url meta = .error .typeError) ∧
    (∀ kv kvs, updateParsed (.jobj (kv :: kvs)) url meta = .error .typeError) ∧
    (∀ c cs, updateParsed (.jstr (String.mk (c :: cs))) url meta = .error .typeError) ∧
    updateParsed (.jobj []) url meta = .error .attributeError ∧
    updateParsed (.jstr "") url meta = .error .attributeError ∧
    (∀ exc, isCaughtSoft exc = true ↔
      (exc = .fileNotFoundError ∨ exc = .jsonDecodeError)) := by
  refine ⟨?_, rfl, fun b => rfl, fun n => rfl, fun kv kvs => rfl, fun c cs => rfl,
    rfl, rfl, fun exc => by cases exc <;> simp [isCaughtSoft]⟩
  intro qs bad post hq hbad
  obtain ⟨exc, hexc, hlook⟩ := lookupGithubUrl_not_record bad hbad
  have hany : anyDup url (qs.map Project.toJVal ++ bad :: post) = .error exc := by
    rw [anyDup_append_clean url qs hq]
    show (lookupGithubUrl bad >>= fun v =>
      if jvalEqStr v url then Except.ok true else anyDup url post) = _
    rw [hlook]
    rfl
  have hupd : updateParsed (.jarr (qs.map Project.toJVal ++ bad :: post)) url meta =
      .error exc := by
    show (Except.ok (qs.map Project.toJVal ++ bad :: post) >>=
      fun elems => anyDup url elems >>= _) = _
    rw [exc_bind_ok, hany, exc_bind_err]
  refine ⟨exc, hexc, hupd, ?_, ?_⟩
  · simp only [update_json_file, updateBody, hupd]
    rcases hexc with rfl | rfl <;> rfl
  · rcases hexc with rfl | rfl <;> rfl

theorem update_raises_uncaught_witness :
    ∃ exc, (exc = PyExc.keyError ∨ exc = PyExc.typeError) ∧
      updateParsed (.jarr (([] : List Project).map Project.toJVal ++ JVal.jint 42 :: []))
        "https://a" sampleMeta = .error exc ∧
      update_json_file
        (.parsed (.jarr (([] : List Project).map Project.toJVal ++ JVal.jint 42 :: [])))
        "https://a" sampleMeta = .error exc ∧
      main_result (.error exc) = .crash exc :=
  (update_raises_uncaught "https://a" sampleMeta).1 [] (.jint 42) []
    (by simp) rfl

/-! ## Claim C4: description extraction -/

theorem litHead_append (l z : List Char) : litHead l (l ++ z) = true := by
  induction l with
  | nil => rfl
  | cons c cs ih => simp [litHead, ih]

theorem litHead_eq_true_iff (p : List Char) : ∀ cs, litHead p cs = true ↔ p <+: cs := by
  induction p with
  | nil => intro cs; simp [litHead]
  | cons x xs ih =>
    intro cs
    cases cs with
    | nil => simp [litHead]
    | cons c cs =>
      rw [List.cons_prefix_cons]
      simp [litHead, ih]

theorem takeWhile_append_stop (p : Char → Bool) (xs : List Char) :
    ∀ y ys, (∀ x ∈ xs, p x = true) → p y = false →
      (xs ++ y :: ys).takeWhile p = xs := by
  induction xs with
  | nil =>
    intro y ys _ hy
    simp [List.takeWhile_cons, hy]
  | cons x xs ih =>
    intro y ys hxs hy
    have hx : p x = true := hxs x (List.mem_cons_self x xs)
    simp [List.takeWhile_cons, hx, ih y ys (fun a ha => hxs a (List.mem_cons.mpr (Or.inr ha))) hy]

theorem nameMatchAt_shape (title z : List Char)
    (h1 : title ≠ []) (h2 : '\n' ∉ title) :
    nameMatchAt ('#' :: ' ' :: (title ++ '\n' :: z)) = some title := by
  have ht : (title ++ '\n' :: z).takeWhile (fun c => c != '\n') = title := by
    apply takeWhile_append_stop
    · intro x hx
      have hne : x ≠ '\n' := fun he => h2 (he ▸ hx)
      simp [hne]
    · decide
  show (if ((title ++ '\n' :: z).takeWhile (fun c => c != '\n')).isEmpty = true then none
        else some ((title ++ '\n' :: z).takeWhile (fun c => c != '\n'))) = some title
  rw [ht, if_neg (by simpa [List.isEmpty_iff] using h1)]

theorem name_search_shape (title z : List Char)
    (h1 : title ≠ []) (h2 : '\n' ∉ title) :
    name_search ('#' :: ' ' :: (title ++ '\n' :: z)) = some title := by
  show nameSearchGo ('#' :: ' ' :: (title ++ '\n' :: z)) true = some title
  unfold nameSearchGo
  rw [if_pos rfl, nameMatchAt_shape title z h1 h2]

theorem descMatchAt_bad_start (c : Char) (tl : List Char)
    (h : litHead ['#', '#'] (c :: tl) = false) :
    descMatchAt (c :: tl) = none := by
  unfold descMatchAt
  rw [h]
  rfl

theorem descSearchGo_cons (c : Char) (tl : List Char) :
    descSearchGo (c :: tl) =
      match descMatchAt (c :: tl) with
      | some g => some g
      | none => descSearchGo tl := rfl

theorem descSearchGo_skip_one (c : Char) (tl : List Char)
    (h : litHead ['#', '#'] (c :: tl) = false) :
    descSearchGo (c :: tl) = descSearchGo tl := by
  rw [descSearchGo_cons, descMatchAt_bad_start c tl h]

theorem litHead_hashes_false_of_head (c : Char) (tl : List Char) (h : c ≠ '#') :
    litHead ['#', '#'] (c :: tl) = false := by
  simp [litHead]
  intro he
  exact absurd he.symm h

theorem descSearchGo_skip_no_hash (pre : List Char) (h : ∀ c ∈ pre, c ≠ '#') :
    ∀ tl, descSearchGo (pre ++ tl) = descSearchGo tl := by
  induction pre with
  | nil => intro tl; rfl
  | cons c cs ih =>
    intro tl
    rw [List.cons_append, descSearchGo_skip_one, ih (fun a ha => h a (List.mem_cons.mpr (Or.inr ha)))]
    exact litHead_hashes_false_of_head c (cs ++ tl) (h c (List.mem_cons_self c cs))

theorem hrLit_no_overlap (b r : List Char) (hne : b ≠ []) (hinf : ¬ hrLit <:+: b) :
    litHead hrLit (b ++ hrLit ++ r) = false := by
  by_contra hcontra
  rw [Bool.not_eq_false, litHead_eq_true_iff] at hcontra
  match b, hne with
  | [c1], _ => simp [hrLit, List.cons_prefix_cons] at hcontra
  | [c1, c2], _ => simp [hrLit, List.cons_prefix_cons] at hcontra
  | [c1, c2, c3], _ => simp [hrLit, List.cons_prefix_cons] at hcontra
  | [c1, c2, c3, c4], _ => simp [hrLit, List.cons_prefix_cons] at hcontra
  | c1 :: c2 :: c3 :: c4 :: c5 :: b', _ =>
    rw [show ((c1 :: c2 :: c3 :: c4 :: c5 :: b') ++ hrLit) ++ r =
      c1 :: c2 :: c3 :: c4 :: c5 :: ((b' ++ hrLit) ++ r) by simp] at hcontra
    simp only [hrLit, List.cons_prefix_cons] at hcontra
    obtain ⟨rfl, rfl, rfl, rfl, rfl, -⟩ := hcontra
    exact hinf ⟨[], b', by simp [hrLit]⟩

theorem findCapture_append (b r : List Char) (hinf : ¬ hrLit <:+: b) :
    findCaptureUpToHr (b ++ hrLit ++ r) = some b := by
  induction b with
  | nil =>
    show findCaptureUpToHr (([] ++ hrLit) ++ r) = some []
    rw [List.nil_append]
    unfold findCaptureUpToHr
    rw [litHead_append hrLit r]
    rfl
  | cons c b ih =>
    unfold findCaptureUpToHr
    rw [if_neg (by
      rw [hrLit_no_overlap (c :: b) r (List.cons_ne_nil c b) hinf]
      simp)]
    have hstep : ((c :: b) ++ hrLit) ++ r = c :: ((b ++ hrLit) ++ r) := by simp
    rw [hstep]
    have hb : ¬ hrLit <:+: b := fun hx => hinf (hx.trans (List.infix_cons (List.infix_refl b)))
    rw [show (c :: ((b ++ hrLit) ++ r) = c :: (b ++ hrLit ++ r)) from rfl]
    simp only [ih hb]
    rfl

theorem descMatchAt_heading (z : List Char) :
    descMatchAt ('#' :: '#' :: ' ' :: (aboutLit ++ z)) = findCaptureUpToHr z := by
  show descTail (aboutLit ++ z) = findCaptureUpToHr z
  show (if litHead aboutLit (aboutLit ++ z) = true then
      findCaptureUpToHr ((aboutLit ++ z).drop aboutLit.length) else none) = findCaptureUpToHr z
  rw [litHead_append aboutLit z, if_pos rfl, List.drop_left]

/-- Counterexample to claim C4 as stated: this README contains a heading
(`## All About The Project`) that contains `About The Project`, followed
by a block of text and a horizontal-rule marker, yet extraction fails
(returns `None`) instead of returning that block as the description,
because the pattern requires the heading text to be exactly
`About The Project`. -/
theorem description_extraction_counterexample :
    "## All About The Project\n\nBody text\n\n---".data <:+:
      "# T\n\n## All About The Project\n\nBody text\n\n---\n".data ∧
    parse_readme (some "# T\n\n## All About The Project\n\nBody text\n\n---\n") = none := by
  exact ⟨by decide, rfl⟩

/-- Claim C4 (amended): for every README content of the shape
`# <title>\n\n## About The Project\n\n<block>\n\n---<rest>` (heading text
exactly `About The Project`, preceded by a blank line requirement of the
pattern), where the title line is non-empty and free of `\n` and `#` and
the block does not contain the terminator `\n\n---`, extraction succeeds,
the description is exactly that block, stripped, with its lines joined by
single spaces, and the name is the stripped title. -/
theorem description_extraction (title body rest : String)
    (h1 : title.data ≠ []) (h2 : '\n' ∉ title.data) (h3 : '#' ∉ title.data)
    (h4 : ¬ hrLit <:+: body.data) :
    ∃ m, parse_readme
        (some ("# " ++ title ++ "\n\n## About The Project\n\n" ++ body ++ "\n\n---" ++ rest)) =
        some m ∧
      m.name = String.mk (pyStrip title.data) ∧
      m.description = String.mk (spaceJoin (pySplitlines (pyStrip body.data))) := by
  have hdata :
      ("# " ++ title ++ "\n\n## About The Project\n\n" ++ body ++ "\n\n---" ++ rest).data =
        '#' :: ' ' :: (title.data ++ '\n' ::
          ('\n' :: '#' :: '#' :: ' ' :: (aboutLit ++ (body.data ++ (hrLit ++ rest.data))))) := by
    simp only [String.data_append]
    show ['#', ' '] ++ title.data ++ ('\n' :: '\n' :: '#' :: '#' :: ' ' :: aboutLit) ++
        body.data ++ hrLit ++ rest.data = _
    simp
  have hname : name_search
      ("# " ++ title ++ "\n\n## About The Project\n\n" ++ body ++ "\n\n---" ++ rest).data =
      some title.data := by
    rw [hdata]
    exact name_search_shape title.data _ h1 h2
  have hdesc : desc_search
      ("# " ++ title ++ "\n\n## About The Project\n\n" ++ body ++ "\n\n---" ++ rest).data =
      some body.data := by
    rw [hdata]
    show descSearchGo ('#' :: (' ' :: (title.data ++ '\n' ::
      ('\n' :: '#' :: '#' :: ' ' :: (aboutLit ++ (body.data ++ (hrLit ++ rest.data))))))) = _
    rw [descSearchGo_skip_one '#' _ (by simp [litHead])]
    rw [show (' ' :: (title.data ++ '\n' ::
        ('\n' :: '#' :: '#' :: ' ' :: (aboutLit ++ (body.data ++ (hrLit ++ rest.data)))))) =
      ((' ' :: title.data) ++ ('\n' :: '\n' ::
        ('#' :: '#' :: ' ' :: (aboutLit ++ (body.data ++ (hrLit ++ rest.data)))))) by simp]
    rw [descSearchGo_skip_no_hash (' ' :: title.data) (by
      intro c hc
      rcases List.mem_cons.mp hc with rfl | hc
      · exact fun he => by cases he
      · exact fun he => h3 (he ▸ hc))]
    rw [show ('\n' :: '\n' ::
        ('#' :: '#' :: ' ' :: (aboutLit ++ (body.data ++ (hrLit ++ rest.data))))) =
      (['\n', '\n'] ++
        ('#' :: '#' :: ' ' :: (aboutLit ++ (body.data ++ (hrLit ++ rest.data))))) from rfl]
    rw [descSearchGo_skip_no_hash ['\n', '\n'] (by decide)]
    rw [descSearchGo_cons, descMatchAt_heading]
    rw [show (body.data ++ (hrLit ++ rest.data)) = ((body.data ++ hrLit) ++ rest.data) from
      (List.append_assoc body.data hrLit rest.data).symm]
    rw [findCapture_append body.data rest.data h4]
  have hm : parse_readme
      (some ("# " ++ title ++ "\n\n## About The Project\n\n" ++ body ++ "\n\n---" ++ rest)) =
      some ⟨String.mk (pyStrip title.data),
        String.mk (spaceJoin (pySplitlines (pyStrip body.data))),
        techPipeline (tech_matches
          ("# " ++ title ++ "\n\n## About The Project\n\n" ++ body ++ "\n\n---" ++ rest).data)⟩ := by
    simp only [parse_readme, hname, hdesc]
  exact ⟨_, hm, rfl, rfl⟩

theorem description_extraction_witness :
    ∃ m, parse_readme
        (some ("# " ++ "T" ++ "\n\n## About The Project\n\n" ++ "Line one\nline two" ++
          "\n\n---" ++ "\n")) = some m ∧
      m.name = String.mk (pyStrip "T".data) ∧
      m.description = String.mk (spaceJoin (pySplitlines (pyStrip "Line one\nline two".data))) :=
  description_extraction "T" "Line one\nline two" "\n"
    (by decide) (by decide) (by decide) (by decide)

/-! ## Concrete evaluations of the embedding (regression checks) -/
example : name_search "# Demo\nrest".data = some "Demo".data := rfl
example : name_search "## Demo\n# T".data = some "T".data := rfl
example : name_search "#\nTitle".data = some "Title".data := rfl
example : name_search "x # Demo".data = none := rfl
example : desc_search "## About The Project\n\nA demo.\n\n---".data = some "A demo.".data := rfl
example : desc_search "# T\n\n## About The Project\n\nA\nB\n\n---x".data = some "A\nB".data := rfl
example : desc_search "## All About The Project\n\nBody\n\n---".data = none := rfl
example : desc_search "### About The Project\n\nBody\n\n---".data = some "Body".data := rfl
example : tech_matches "badge/a-Go-b badge/a-Python-b".data = ["Go", "Python"] := rfl
example : tech_matches "badge/x-y nothing".data = [] := rfl
example : techPipeline ["Go", "Python", "Platform-Windows"] = ["Go", "Python"] := rfl
example : techPipeline ["Python", "python", "Python"] = ["Python", "python"] := rfl
example :
    parse_readme (some "# Demo\n\n## About The Project\n\nA demo.\n\n---\n\nbadge/a-Go-b") =
      some { name := "Demo", description := "A demo.", technologies := ["Go"] } := rfl

end PortfolioSpec
